import Mathlib

/-
  A verification development for the indentation engine of the
  vscode-emacs-tab extension (src/extension.ts).

  Modelling choices, kept as close to the source as a shallow embedding
  allows:
  * A buffer line is a list of characters.
  * A JavaScript RegExp held by an IndentationRule or a BracketRule is only
    ever used through its .test method in this code, so each nullable RegExp
    field becomes an optional boolean predicate on lines (null, which the
    source produces for an absent or non-compiling pattern, becomes none).
    The concrete compiled regexes that the source derives for the bracket
    pair of an opening and a closing curly brace are embedded explicitly as
    openBraceTest and closeBraceTest below.
  * Indent levels are rationals: countIndent divides a space count by the
    tab size.  tabSize is a positive integer supplied by the host editor;
    theorems carry 0 < tabSize where the division matters (JavaScript would
    produce Infinity at tabSize = 0, which is outside the host contract).
    The source computes these levels in IEEE-754 binary64, not exact
    rationals, and rounding is observable there: with tab size 3 and a
    4-space indent the source's (1 + 4/3) * 3 is 6.999999999999999.  The
    embedding keeps exact rationals - binary64 is not shallowly embeddable
    here - and therefore only states arithmetic properties in forms that
    are insensitive to rounding: quantities that are integers throughout
    (integer products and correctly rounded integer divisions are exact in
    binary64), comparisons of byte-identical recomputations (deterministic
    in binary64), and paths that perform no level synthesis at all.
    Properties that would hold in exact arithmetic but fail under binary64
    rounding are deliberately not claimed.
  * The RangeError that JavaScript's Array constructor raises inside
    convertIndentLevelToString for an invalid array length (a non-integral
    or negative length) is modelled by Option: none means the call throws.
    The 2^32 upper bound on JavaScript array lengths is not modelled.
  * The editor-global settings read inside the functions (tab size, the
    insertSpaces flag, the document end-of-line mode, the cursor position)
    are threaded as explicit parameters.
-/

/-- A buffer line, as a list of characters. -/
abbrev Line := List Char

/-- The character class of JavaScript's backslash-s regex escape:
tab through carriage return, space, and the Unicode space characters. -/
def isJsWs (c : Char) : Bool :=
  decide ((9 ≤ c.toNat ∧ c.toNat ≤ 13) ∨ c.toNat = 32 ∨ c.toNat = 160 ∨
    c.toNat = 5760 ∨ (8192 ≤ c.toNat ∧ c.toNat ≤ 8202) ∨ c.toNat = 8232 ∨
    c.toNat = 8233 ∨ c.toNat = 8239 ∨ c.toNat = 8287 ∨ c.toNat = 12288 ∨
    c.toNat = 65279)

/-- vscode.IndentAction, the four-way decision outcome. -/
inductive IndentAction where
  | None
  | Indent
  | Outdent
  | IndentOutdent
deriving DecidableEq

/-- The IndentationRule class: four nullable compiled patterns, each
modelled by the behaviour of its .test method. -/
structure IndentationRule where
  unIndentedLinePattern : Option (Line → Bool)
  increaseIndentPattern : Option (Line → Bool)
  decreaseIndentPattern : Option (Line → Bool)
  indentNextLinePattern : Option (Line → Bool)

/-- IndentationRule.testUnIndentedLinePattern: test the pattern if present,
otherwise false. -/
def IndentationRule.testUnIndentedLinePattern (r : IndentationRule)
    (line : Line) : Bool :=
  match r.unIndentedLinePattern with
  | some pat => pat line
  | none => false

/-- IndentationRule.testIncreaseIndentPattern. -/
def IndentationRule.testIncreaseIndentPattern (r : IndentationRule)
    (line : Line) : Bool :=
  match r.increaseIndentPattern with
  | some pat => pat line
  | none => false

/-- IndentationRule.testDecreaseIndentPattern. -/
def IndentationRule.testDecreaseIndentPattern (r : IndentationRule)
    (line : Line) : Bool :=
  match r.decreaseIndentPattern with
  | some pat => pat line
  | none => false

/-- IndentationRule.testIndentNextLinePattern. -/
def IndentationRule.testIndentNextLinePattern (r : IndentationRule)
    (line : Line) : Bool :=
  match r.indentNextLinePattern with
  | some pat => pat line
  | none => false

/-- IndentationRule.estimateIndentAction (extension.ts lines 124-152).
The mutable pair (nextIndentLevel, ruleMatched) of the source becomes two
sequenced lets.  Note that the branch for a matching unIndentedLinePattern
is the source's bare comment "do nothing": it leaves ruleMatched false. -/
def IndentationRule.estimateIndentAction (r : IndentationRule)
    (validPreviousLine currentLine : Line) : Option IndentAction :=
  let afterPrev : Int × Bool :=
    if r.testUnIndentedLinePattern validPreviousLine then (0, false)
    else if r.testIncreaseIndentPattern validPreviousLine then (1, true)
    else if r.testIndentNextLinePattern validPreviousLine then (1, true)
    else (0, false)
  let afterCur : Int × Bool :=
    if r.testDecreaseIndentPattern currentLine then (afterPrev.1 - 1, true)
    else afterPrev
  if afterCur.2 then
    if afterCur.1 = 0 then some IndentAction.None
    else if afterCur.1 > 0 then some IndentAction.Indent
    else some IndentAction.Outdent
  else none

/-- The BracketRule class, reduced to what the decision engine uses: its two
nullable compiled regexes, modelled by their .test behaviour. -/
structure BracketRule where
  openRegExp : Option (Line → Bool)
  closeRegExp : Option (Line → Bool)

/-- The body of the loop in step 2 of estimateIndentAction: both regexes are
non-null, the open one matches the previous line and the close one matches
the stripped current line. -/
def bracketIndentOutdentTest (b : BracketRule) (prev stripped : Line) : Bool :=
  match b.openRegExp, b.closeRegExp with
  | some po, some pc => po prev && pc stripped
  | _, _ => false

/-- The body of the loop in step 3 of estimateIndentAction. -/
def bracketOpenTest (b : BracketRule) (prev : Line) : Bool :=
  match b.openRegExp with
  | some po => po prev
  | none => false

/-- The body of the loop in step 4 of estimateIndentAction. -/
def bracketCloseTest (b : BracketRule) (stripped : Line) : Bool :=
  match b.closeRegExp with
  | some pc => pc stripped
  | none => false

/-- ILanguageConfiguration, restricted to the fields the engine reads.
onEnterRules is parsed by the source but never evaluated (the step-1 block
of estimateIndentAction is commented out), so it is omitted.  brackets is
none when the configuration has no bracket list at all (the source guards
each bracket step with the truthiness of bracketsArray). -/
structure ILanguageConfiguration where
  indentationRules : Option IndentationRule
  brackets : Option (List BracketRule)

/-- estimateIndentAction (extension.ts lines 378-446).  The null check on
validPreviousLine is modelled by an Option parameter; every caller in the
source passes an actual string. -/
def estimateIndentAction (validPreviousLine : Option Line) (currentLine : Line)
    (languageConfiguration : ILanguageConfiguration) : IndentAction :=
  match validPreviousLine with
  | none => IndentAction.None
  | some prev =>
    let currentLineWithoutLeadingWhiteSpaces := currentLine.dropWhile isJsWs
    let ruleAction : Option IndentAction :=
      match languageConfiguration.indentationRules with
      | some rule => rule.estimateIndentAction prev currentLine
      | none => none
    match ruleAction with
    | some a => a
    | none =>
      match languageConfiguration.brackets with
      | none => IndentAction.None
      | some bracketsArray =>
        if (!prev.isEmpty) && (!currentLineWithoutLeadingWhiteSpaces.isEmpty)
            && bracketsArray.any (fun b =>
              bracketIndentOutdentTest b prev
                currentLineWithoutLeadingWhiteSpaces) then
          IndentAction.IndentOutdent
        else if (!prev.isEmpty)
            && bracketsArray.any (fun b => bracketOpenTest b prev) then
          IndentAction.Indent
        else if (!currentLineWithoutLeadingWhiteSpaces.isEmpty)
            && bracketsArray.any (fun b =>
              bracketCloseTest b currentLineWithoutLeadingWhiteSpaces) then
          IndentAction.Outdent
        else IndentAction.None

/-- The compiled openRegExp that BracketRule builds for the literal opening
curly brace: escaping gives a backslash-brace, whose first character is not
a word character, so no word-boundary is inserted, and the suffix anchors it
as: the brace, then optional whitespace, then end of string.  That regex
matches a line exactly when the line, with trailing whitespace removed, ends
with the opening brace. -/
def openBraceTest (line : Line) : Bool :=
  match line.reverse.dropWhile isJsWs with
  | [] => false
  | c :: _ => c == '{'

/-- The compiled closeRegExp for the literal closing curly brace:
start of string, optional whitespace, then the brace (no trailing
word-boundary is added since the brace is not a word character). -/
def closeBraceTest (line : Line) : Bool :=
  match line.dropWhile isJsWs with
  | [] => false
  | c :: _ => c == '}'

/-- The BracketRule built from the curly-brace pair. -/
def braceBracket : BracketRule :=
  { openRegExp := some openBraceTest, closeRegExp := some closeBraceTest }

/-- countIndent (extension.ts lines 496-501): tabs anywhere in the text
count one unit each, spaces count one tabSize-th each.  The source divides
in binary64; this definition divides in exact rationals, so theorems that
depend on the value only use it where the two agree: integral results
(tab runs, space runs divisible by the tab size) and comparisons between
recomputations of the very same quantity. -/
def countIndent (indentText : Line) (tabSize : ℕ) : ℚ :=
  let tabCount := indentText.count '\t'
  let spaceCount := indentText.count ' '
  (tabCount : ℚ) + (spaceCount : ℚ) / (tabSize : ℚ)

/-- convertIndentLevelToString (extension.ts lines 508-515).  The source
builds new Array(1 + indentLevel) (respectively 1 + indentLevel * tabSize)
and joins it with a tab (respectively a space), which yields that many
separator characters, one fewer than the array length.  The Array
constructor throws a RangeError unless the requested length is a
non-negative integer, hence the Option.  The integrality test here is
exact-rational while the source's is on a binary64 value: a fractional
level whose product with the tab size is an integer in exact arithmetic
can still throw in the source (tab size 3, level 1 + 4/3: the binary64
product is 6.999999999999999), so theorems only assert success where the
arithmetic is integral end to end and hence exact in binary64 too. -/
def convertIndentLevelToString (hardTab : Bool) (indentLevel : ℚ)
    (tabSize : ℕ) : Option Line :=
  if hardTab then
    if (1 + indentLevel).den = 1 ∧ 0 ≤ (1 + indentLevel).num then
      some (List.replicate ((1 + indentLevel).num.toNat - 1) '\t')
    else none
  else
    if (1 + indentLevel * tabSize).den = 1 ∧ 0 ≤ (1 + indentLevel * tabSize).num then
      some (List.replicate ((1 + indentLevel * tabSize).num.toNat - 1) ' ')
    else none

/-- getIndent (extension.ts lines 620-628): the maximal leading run of
whitespace characters.  (The regex of the source always matches, possibly
emptily, so its null branch is unreachable.) -/
def getIndent (line : Line) : Line :=
  line.takeWhile isJsWs

/-- indentLine (extension.ts lines 601-613).  The hard-tab flag read by
convertIndentLevelToString from the editor configuration is threaded
through. -/
def indentLine (hardTab : Bool) (line : Line) (indentLevel : ℚ)
    (previousIndent : Line) (previousIndentLevel : ℚ) (tabSize : ℕ) :
    Option Line :=
  let withoutLeadingWhiteSpacesLine := line.dropWhile isJsWs
  if previousIndentLevel = indentLevel then
    some (previousIndent ++ withoutLeadingWhiteSpacesLine)
  else
    match convertIndentLevelToString hardTab indentLevel tabSize with
    | none => none
    | some additionalSpaces => some (additionalSpaces ++ withoutLeadingWhiteSpacesLine)

/-- The idealIndent computation of reindentCurrentLine (extension.ts lines
539-549): start from the previous line's level, adjust by the action, clamp
at zero. -/
def computeIdealIndent (indentAction : IndentAction)
    (previousLevel : ℚ) : ℚ :=
  let adjusted : ℚ :=
    match indentAction with
    | IndentAction.Indent => 1 + previousLevel
    | IndentAction.Outdent => previousLevel - 1
    | IndentAction.IndentOutdent => 1 + previousLevel
    | IndentAction.None => previousLevel
  if adjusted < 0 then 0 else adjusted

/-- The observable outcome of one reindentCurrentLine call: the text of the
current line after the call, the cursor column after the call (rational,
because the snap column multiplies a possibly fractional level), whether an
edit.replace was issued, and whether editor.selection was assigned. -/
structure ReindentResult where
  newText : Line
  cursor : ℚ
  edited : Bool
  selectionSet : Bool
deriving DecidableEq

/-- reindentCurrentLine (extension.ts lines 522-586).  none models the
RangeError escaping from convertIndentLevelToString via indentLine before
any edit or cursor change.  eolCRLF is document.eol == 2; in that mode, for
a replacement longer than one character on a line whose length differs from
its raw indent length, the source trims the last character of the
replacement (the line was split on bare newlines, so it still carries a
carriage return). -/
def reindentCurrentLine (indentAction : IndentAction)
    (validPreviousLine currentLine : Line) (tabSize : ℕ) (hardTab : Bool)
    (cursorChar : ℕ) (eolCRLF : Bool) : Option ReindentResult :=
  let previousIndent := getIndent validPreviousLine
  let beforeIndentCurrentIndent := countIndent (getIndent currentLine) tabSize
  let beforeIndentCurrentIndentNative := (getIndent currentLine).length
  let idealIndent :=
    computeIdealIndent indentAction (countIndent previousIndent tabSize)
  let editStep : Option (Bool × Line) :=
    if idealIndent ≠ beforeIndentCurrentIndent then
      match indentLine hardTab currentLine idealIndent previousIndent
          (countIndent previousIndent tabSize) tabSize with
      | none => none
      | some indentedCurrentLine =>
        some (true,
          if eolCRLF = true ∧ 1 < indentedCurrentLine.length ∧
              currentLine.length ≠ beforeIndentCurrentIndentNative then
            indentedCurrentLine.dropLast
          else indentedCurrentLine)
    else some (false, currentLine)
  match editStep with
  | none => none
  | some (edited, newText) =>
    if cursorChar < beforeIndentCurrentIndentNative then
      let nativeCharacterTabSize : ℚ := if hardTab then 1 else (tabSize : ℚ)
      some ⟨newText, idealIndent * nativeCharacterTabSize, edited, true⟩
    else if idealIndent ≠ beforeIndentCurrentIndent then
      some ⟨newText,
        (idealIndent - beforeIndentCurrentIndent) * (tabSize : ℚ) + (cursorChar : ℚ),
        edited, true⟩
    else some ⟨newText, (cursorChar : ℚ), edited, false⟩

/-- getValidPreviousLine (extension.ts lines 588-599): scan upward from the
line above for a line that is non-empty and not all whitespace; the empty
string if none exists.  (Out-of-range access, impossible from the callers,
is given the empty line.) -/
def getValidPreviousLine (allLinesArray : List Line) (currentLine : ℕ) : Line :=
  match currentLine with
  | 0 => []
  | previousLine + 1 =>
    let previousLineContent := allLinesArray.getD previousLine []
    if previousLineContent.length > 0 &&
        !(previousLineContent.all isJsWs) then
      previousLineContent
    else
      getValidPreviousLine allLinesArray previousLine

/-- The editor state read by getPreviousAndCurrentLine and
reindentCurrentLine: the buffer's lines (document text split on newline),
the cursor, and whether the selection is empty. -/
structure EditorState where
  lines : List Line
  cursorLine : ℕ
  cursorChar : ℕ
  selectionEmpty : Bool

/-- getPreviousAndCurrentLine (extension.ts lines 279-297). -/
def getPreviousAndCurrentLine (editor : EditorState) : Line × Line :=
  if !editor.selectionEmpty then ([], [])
  else
    let currentLine := editor.lines.getD editor.cursorLine []
    if editor.cursorLine = 0 then ([], currentLine)
    else (getValidPreviousLine editor.lines editor.cursorLine, currentLine)

/-- The buffer and cursor after one command run. -/
structure CommandResult where
  lines : List Line
  cursor : ℚ
deriving DecidableEq

/-- runReindentCurrentLineCommand (extension.ts lines 196-228), in its
non-debug path, after a language configuration was resolved: fetch the line
pair, estimate the action, reindent.  The edit.replace of the source covers
columns 0 through the length of the currentLine value it was handed (which
is the empty string when the selection is non-empty), so the replacement is
spliced at that width into the actual buffer line. -/
def runReindentCurrentLineCommand (editor : EditorState)
    (langConfig : ILanguageConfiguration) (tabSize : ℕ) (hardTab : Bool)
    (eolCRLF : Bool) : Option CommandResult :=
  let pc := getPreviousAndCurrentLine editor
  let indent := estimateIndentAction (some pc.1) pc.2 langConfig
  match reindentCurrentLine indent pc.1 pc.2 tabSize hardTab
      editor.cursorChar eolCRLF with
  | none => none
  | some r =>
    let actualLine := editor.lines.getD editor.cursorLine []
    let newLines :=
      if r.edited then
        editor.lines.set editor.cursorLine
          (r.newText ++ actualLine.drop pc.2.length)
      else editor.lines
    some ⟨newLines, r.cursor⟩

/-- The estimate-then-reindent composition performed by
runReindentCurrentLineCommand once the line pair is in hand. -/
def reindentPipeline (validPreviousLine currentLine : Line)
    (langConfig : ILanguageConfiguration) (tabSize : ℕ) (hardTab : Bool)
    (cursorChar : ℕ) (eolCRLF : Bool) : Option ReindentResult :=
  reindentCurrentLine
    (estimateIndentAction (some validPreviousLine) currentLine langConfig)
    validPreviousLine currentLine tabSize hardTab cursorChar eolCRLF

/-- Modelled from the spec: the cursor-repositioning rule exactly as the
specification words it, for comparison with the cursor column that
reindentCurrentLine produces: inside the leading whitespace, snap to
idealIndent times the native character tab size; else, if the level
changed, shift by the level difference times the tab size; else leave the
cursor alone. -/
def specCursorColumn (hardTab : Bool) (tabSize : ℕ) (cursorChar : ℕ)
    (idealIndent currentIndentLevel : ℚ) (nativeIndentLen : ℕ) : ℚ :=
  if cursorChar < nativeIndentLen then
    idealIndent * (if hardTab then 1 else (tabSize : ℚ))
  else if idealIndent ≠ currentIndentLevel then
    (idealIndent - currentIndentLevel) * (tabSize : ℚ) + (cursorChar : ℚ)
  else (cursorChar : ℚ)

/-- A language configuration whose only bracket pair is the curly-brace
pair and which has no indentation rules. -/
def braceConfig : ILanguageConfiguration :=
  { indentationRules := none, brackets := some [braceBracket] }

/-- A language configuration with no indentation rules and no brackets. -/
def emptyConfig : ILanguageConfiguration :=
  { indentationRules := none, brackets := none }

/-- A predicate matching every line; realizable as the JavaScript regex
consisting of a dot and a star. -/
def matchAllPattern : Line → Bool := fun _ => true

/-- A predicate matching lines whose first character is whitespace;
realizable as the JavaScript regex anchored at start followed by the
whitespace class. -/
def headWsPattern : Line → Bool := fun l =>
  match l with
  | [] => false
  | c :: _ => isJsWs c

/-- An IndentationRule whose only configured pattern is an
unIndentedLinePattern matching every line. -/
def unIndentedOnlyRule : IndentationRule :=
  { unIndentedLinePattern := some matchAllPattern,
    increaseIndentPattern := none,
    decreaseIndentPattern := none,
    indentNextLinePattern := none }

/-- unIndentedOnlyRule together with the curly-brace bracket pair. -/
def unIndentedBraceConfig : ILanguageConfiguration :=
  { indentationRules := some unIndentedOnlyRule,
    brackets := some [braceBracket] }

/-- An IndentationRule whose only configured pattern is a
decreaseIndentPattern matching lines that start with whitespace. -/
def headWsDecreaseRule : IndentationRule :=
  { unIndentedLinePattern := none,
    increaseIndentPattern := none,
    decreaseIndentPattern := some headWsPattern,
    indentNextLinePattern := none }

/-- headWsDecreaseRule as a full configuration, without brackets. -/
def headWsDecreaseConfig : ILanguageConfiguration :=
  { indentationRules := some headWsDecreaseRule, brackets := none }

/- Batteries seals the rational arithmetic operations; reopening them for
reduction lets concrete runs of the engine be settled by decide. -/
attribute [local semireducible] Rat.mul Rat.inv Rat.add Rat.sub

/- ## General lemmas about whitespace splitting and indent arithmetic -/

theorem head_dropWhile_not (p : Char → Bool) (l : Line) :
    ∀ c, (l.dropWhile p).head? = some c → p c = false := by
  induction l with
  | nil => intro c h; simp [List.dropWhile] at h
  | cons a t ih =>
    intro c h
    by_cases ha : p a
    · rw [List.dropWhile_cons_of_pos ha] at h
      exact ih c h
    · rw [List.dropWhile_cons_of_neg ha] at h
      simp only [List.head?_cons, Option.some.injEq] at h
      subst h
      simpa using ha

theorem takeWhile_append_of (p : Char → Bool) (P B : Line)
    (hP : ∀ c ∈ P, p c = true)
    (hB : ∀ c, B.head? = some c → p c = false) :
    (P ++ B).takeWhile p = P ∧ (P ++ B).dropWhile p = B := by
  induction P with
  | nil =>
    simp only [List.nil_append]
    cases B with
    | nil => simp
    | cons b t =>
      have hb : p b = false := hB b rfl
      simp [List.takeWhile, List.dropWhile, hb]
  | cons a P ih =>
    have ha : p a = true := hP a (by simp)
    have ihs := ih (fun c hc => hP c (by simp [hc]))
    simp only [List.cons_append, List.takeWhile_cons, List.dropWhile_cons, ha]
    simp [ihs.1, ihs.2]

theorem getIndent_mem_ws (l : Line) : ∀ c ∈ getIndent l, isJsWs c = true :=
  fun _ hc => List.mem_takeWhile_imp hc

theorem getIndent_append_dropWhile (l : Line) :
    getIndent l ++ l.dropWhile isJsWs = l :=
  List.takeWhile_append_dropWhile isJsWs l

theorem getIndent_of_ws_append (P B : Line) (hP : ∀ c ∈ P, isJsWs c = true)
    (hB : ∀ c, B.head? = some c → isJsWs c = false) :
    getIndent (P ++ B) = P :=
  (takeWhile_append_of isJsWs P B hP hB).1

theorem dropWhile_of_ws_append (P B : Line) (hP : ∀ c ∈ P, isJsWs c = true)
    (hB : ∀ c, B.head? = some c → isJsWs c = false) :
    (P ++ B).dropWhile isJsWs = B :=
  (takeWhile_append_of isJsWs P B hP hB).2

theorem countIndent_nil (tabSize : ℕ) : countIndent [] tabSize = 0 := by
  simp [countIndent]

theorem countIndent_nonneg (l : Line) (tabSize : ℕ) :
    0 ≤ countIndent l tabSize := by
  unfold countIndent
  positivity

theorem computeIdealIndent_nonneg (a : IndentAction) (x : ℚ) :
    0 ≤ computeIdealIndent a x := by
  unfold computeIdealIndent
  cases a <;>
    · simp only []
      split
      · exact le_refl (0 : ℚ)
      · next h => exact le_of_not_lt h

theorem countIndent_mul_tabSize (l : Line) (tabSize : ℕ) (h : 0 < tabSize) :
    countIndent l tabSize * (tabSize : ℚ) =
      ((l.count '\t' * tabSize + l.count ' ' : ℕ) : ℚ) := by
  have hts : (tabSize : ℚ) ≠ 0 := by positivity
  unfold countIndent
  push_cast
  field_simp

theorem countIndent_replicate_tab (k tabSize : ℕ) :
    countIndent (List.replicate k '\t') tabSize = (k : ℚ) := by
  unfold countIndent
  rw [List.count_replicate_self, List.count_replicate]
  simp

theorem countIndent_replicate_space (k tabSize : ℕ) :
    countIndent (List.replicate k ' ') tabSize = (k : ℚ) / (tabSize : ℚ) := by
  unfold countIndent
  rw [List.count_replicate_self, List.count_replicate]
  simp

theorem replicate_tab_ws (k : ℕ) :
    ∀ c ∈ List.replicate k '\t', isJsWs c = true := by
  intro c hc
  rw [List.eq_of_mem_replicate hc]
  decide

theorem replicate_space_ws (k : ℕ) :
    ∀ c ∈ List.replicate k ' ', isJsWs c = true := by
  intro c hc
  rw [List.eq_of_mem_replicate hc]
  decide

theorem convert_hard_eq (level : ℚ) (tabSize k : ℕ) (hk : level = (k : ℚ)) :
    convertIndentLevelToString true level tabSize = some (List.replicate k '\t') := by
  subst hk
  have h1 : (1 : ℚ) + (k : ℚ) = ((1 + k : ℕ) : ℚ) := by push_cast; ring
  simp only [convertIndentLevelToString, if_true, h1, Rat.den_natCast, Rat.num_natCast]
  rw [if_pos ⟨trivial, by positivity⟩]
  congr 1
  congr 1
  omega

theorem convert_soft_eq (level : ℚ) (tabSize k : ℕ) (hk : level * (tabSize : ℚ) = (k : ℚ)) :
    convertIndentLevelToString false level tabSize = some (List.replicate k ' ') := by
  have h1 : (1 : ℚ) + level * (tabSize : ℚ) = ((1 + k : ℕ) : ℚ) := by
    rw [hk]; push_cast; ring
  simp only [convertIndentLevelToString, if_false, h1, Rat.den_natCast, Rat.num_natCast,
    Bool.false_eq_true]
  rw [if_pos ⟨trivial, by positivity⟩]
  congr 1
  congr 1
  omega

theorem convert_some_inv (hardTab : Bool) (level : ℚ) (tabSize : ℕ)
    (hts : 0 < tabSize) (hlev : 0 ≤ level) (s : Line)
    (h : convertIndentLevelToString hardTab level tabSize = some s) :
    countIndent s tabSize = level ∧ ∀ c ∈ s, isJsWs c = true := by
  have htsq : (0:ℚ) < (tabSize:ℚ) := by exact_mod_cast hts
  cases hardTab
  case true =>
    rw [convertIndentLevelToString, if_pos rfl] at h
    split_ifs at h with hg
    obtain ⟨hden, hnum⟩ := hg
    have hs : s = List.replicate ((1 + level).num.toNat - 1) '\t' := by
      injection h with h2; exact h2.symm
    subst hs
    set a : ℤ := (1 + level).num with ha
    have hneq : ((a : ℤ) : ℚ) = 1 + level := Rat.coe_int_num_of_den_eq_one hden
    have h1le : (1:ℚ) ≤ ((a : ℤ) : ℚ) := by rw [hneq]; linarith
    have ha1 : (1:ℤ) ≤ a := by exact_mod_cast h1le
    have htn : ((a.toNat : ℕ) : ℚ) = ((a : ℤ) : ℚ) := by
      exact_mod_cast Int.toNat_of_nonneg (by omega : (0:ℤ) ≤ a)
    refine ⟨?_, replicate_tab_ws _⟩
    rw [countIndent_replicate_tab]
    rw [Nat.cast_sub (by omega : 1 ≤ a.toNat)]
    rw [htn, hneq]
    push_cast
    ring
  case false =>
    rw [convertIndentLevelToString, if_neg (by simp)] at h
    split_ifs at h with hg
    obtain ⟨hden, hnum⟩ := hg
    have hs : s = List.replicate ((1 + level * tabSize).num.toNat - 1) ' ' := by
      injection h with h2; exact h2.symm
    subst hs
    set a : ℤ := (1 + level * tabSize).num with ha
    have hneq : ((a : ℤ) : ℚ) = 1 + level * tabSize := Rat.coe_int_num_of_den_eq_one hden
    have h1le : (1:ℚ) ≤ ((a : ℤ) : ℚ) := by
      rw [hneq]
      nlinarith
    have ha1 : (1:ℤ) ≤ a := by exact_mod_cast h1le
    have htn : ((a.toNat : ℕ) : ℚ) = ((a : ℤ) : ℚ) := by
      exact_mod_cast Int.toNat_of_nonneg (by omega : (0:ℤ) ≤ a)
    refine ⟨?_, replicate_space_ws _⟩
    rw [countIndent_replicate_space]
    rw [Nat.cast_sub (by omega : 1 ≤ a.toNat)]
    rw [htn, hneq]
    field_simp

/- ## Claim theorems -/

/-- C5: for a configuration whose only bracket pair is the curly-brace pair
and with no indentation rules, estimateIndentAction returns IndentOutdent
for previous line "if (x) {" with current line "}", Indent for previous
line "if (x) {" with current line "foo();", Outdent for previous line
"foo();" with current line "}", and None for previous line "foo();" with
current line "bar();". -/
theorem c5_brace_bracket_examples :
    estimateIndentAction (some "if (x) \x7b".toList) "\x7d".toList braceConfig =
      IndentAction.IndentOutdent ∧
    estimateIndentAction (some "if (x) \x7b".toList) "foo();".toList braceConfig =
      IndentAction.Indent ∧
    estimateIndentAction (some "foo();".toList) "\x7d".toList braceConfig =
      IndentAction.Outdent ∧
    estimateIndentAction (some "foo();".toList) "bar();".toList braceConfig =
      IndentAction.None := by
  decide

/-- C2 counterexample: a rule whose unIndentedLinePattern matches the
previous line (pattern matching every line, realizable as a dot-star regex)
while decreaseIndentPattern does not match the current line makes
IndentationRule.estimateIndentAction return null - not IndentAction.None -
so bracket logic IS consulted: with a brace bracket the engine yields
Indent for previous line "if (x) {". -/
theorem c2_counterexample :
    unIndentedOnlyRule.testUnIndentedLinePattern "if (x) \x7b".toList = true ∧
    unIndentedOnlyRule.testDecreaseIndentPattern "foo();".toList = false ∧
    unIndentedOnlyRule.estimateIndentAction "if (x) \x7b".toList "foo();".toList
      = none ∧
    estimateIndentAction (some "if (x) \x7b".toList) "foo();".toList
      unIndentedBraceConfig = IndentAction.Indent := by
  decide

/-- C2 amended: when unIndentedLinePattern matches the previous line (which
suppresses the increase and indent-next checks) and decreaseIndentPattern
does not match the current line, IndentationRule.estimateIndentAction does
NOT count the match as a fired rule: it returns null, so the engine falls
through to bracket logic. -/
theorem c2_amended_unindented_returns_null (r : IndentationRule)
    (prev cur : Line)
    (hu : r.testUnIndentedLinePattern prev = true)
    (hd : r.testDecreaseIndentPattern cur = false) :
    r.estimateIndentAction prev cur = none := by
  unfold IndentationRule.estimateIndentAction
  simp [hu, hd]

/-- Witness for the C2 amended theorem at a concrete rule and lines. -/
theorem c2_amended_witness :
    unIndentedOnlyRule.estimateIndentAction "abc".toList "de".toList = none :=
  c2_amended_unindented_returns_null unIndentedOnlyRule "abc".toList
    "de".toList (by decide) (by decide)

/-- C3 counterexample: handed the empty string as previous line (as on the
first buffer line), with the curly-brace bracket configuration and current
line "}", estimateIndentAction returns Outdent, not None. -/
theorem c3_counterexample :
    estimateIndentAction (some []) "\x7d".toList braceConfig =
      IndentAction.Outdent ∧
    IndentAction.Outdent ≠ IndentAction.None := by
  decide

/-- C3 amended: estimateIndentAction returns None when the previous line is
null (absent), which no caller in the source ever passes.  Handed the EMPTY
STRING - what the callers actually pass on the first buffer line - with no
indentation rules, the close-bracket step can still fire: the result is
Outdent exactly when some bracket's close pattern matches the non-blank
stripped current line, and None otherwise (in particular None whenever
there are no brackets). -/
theorem c3_amended_empty_previous :
    (∀ (cur : Line) (cfg : ILanguageConfiguration),
      estimateIndentAction none cur cfg = IndentAction.None)
    ∧ (∀ (cur : Line) (cfg : ILanguageConfiguration) (bl : List BracketRule),
      cfg.indentationRules = none → cfg.brackets = some bl →
      estimateIndentAction (some []) cur cfg =
        if (!(cur.dropWhile isJsWs).isEmpty) &&
            bl.any (fun b => bracketCloseTest b (cur.dropWhile isJsWs)) then
          IndentAction.Outdent
        else IndentAction.None)
    ∧ (∀ (cur : Line) (cfg : ILanguageConfiguration),
      cfg.indentationRules = none → cfg.brackets = none →
      estimateIndentAction (some []) cur cfg = IndentAction.None) := by
  refine ⟨fun cur cfg => rfl, ?_, ?_⟩
  · intro cur cfg bl h1 h2
    simp [estimateIndentAction, h1, h2]
  · intro cur cfg h1 h2
    simp [estimateIndentAction, h1, h2]

/-- Witness for the C3 amended theorem at the brace configuration. -/
theorem c3_amended_witness :
    estimateIndentAction (some []) "\x7d".toList braceConfig =
      (if (!("\x7d".toList.dropWhile isJsWs).isEmpty) &&
          [braceBracket].any
            (fun b => bracketCloseTest b ("\x7d".toList.dropWhile isJsWs)) then
        IndentAction.Outdent
      else IndentAction.None) :=
  c3_amended_empty_previous.2.1 "\x7d".toList braceConfig [braceBracket] rfl rfl


theorem rule_estimate_ne_indentOutdent (r : IndentationRule)
    (prev cur : Line) :
    r.estimateIndentAction prev cur ≠ some IndentAction.IndentOutdent := by
  unfold IndentationRule.estimateIndentAction
  split_ifs <;> simp

/-- C10: the engine returns IndentOutdent only out of the bracket step: if
it does, the configuration has a bracket list in which some pair's open
pattern matches the previous line and its close pattern matches the current
line stripped of leading whitespace; the indentation-rule path never
produces IndentOutdent; and a configuration without brackets (absent or
empty list) never produces IndentOutdent for any input. -/
theorem c10_indentoutdent_only_from_brackets :
    (∀ (r : IndentationRule) (prev cur : Line),
      r.estimateIndentAction prev cur ≠ some IndentAction.IndentOutdent)
    ∧ (∀ (cfg : ILanguageConfiguration) (prev cur : Line),
      estimateIndentAction (some prev) cur cfg = IndentAction.IndentOutdent →
      ∃ bl, cfg.brackets = some bl ∧
        bl.any (fun b =>
          bracketIndentOutdentTest b prev (cur.dropWhile isJsWs)) = true)
    ∧ (∀ (cfg : ILanguageConfiguration) (prevOpt : Option Line) (cur : Line),
      cfg.brackets = none ∨ cfg.brackets = some [] →
      estimateIndentAction prevOpt cur cfg ≠ IndentAction.IndentOutdent) := by
  refine ⟨rule_estimate_ne_indentOutdent, ?_, ?_⟩
  · intro cfg prev cur h
    rcases cfg with ⟨rules, brackets⟩
    rcases rules with _ | rule
    · rcases brackets with _ | bl
      · simp [estimateIndentAction] at h
      · refine ⟨bl, rfl, ?_⟩
        simp only [estimateIndentAction] at h
        split_ifs at h with hc h2 h3
        simp only [Bool.and_eq_true] at hc
        exact hc.2
    · rcases hra : rule.estimateIndentAction prev cur with _ | a
      · rcases brackets with _ | bl
        · simp [estimateIndentAction, hra] at h
        · refine ⟨bl, rfl, ?_⟩
          simp only [estimateIndentAction, hra] at h
          split_ifs at h with hc h2 h3
          simp only [Bool.and_eq_true] at hc
          exact hc.2
      · simp only [estimateIndentAction, hra] at h
        subst h
        exact absurd hra (rule_estimate_ne_indentOutdent rule prev cur)
  · intro cfg prevOpt cur hb h
    rcases prevOpt with _ | prev
    · simp [estimateIndentAction] at h
    rcases cfg with ⟨rules, brackets⟩
    simp only at hb
    rcases rules with _ | rule
    · rcases hb with hb | hb <;> subst hb <;>
        simp [estimateIndentAction] at h
    · rcases hra : rule.estimateIndentAction prev cur with _ | a
      · rcases hb with hb | hb <;> subst hb <;>
          simp [estimateIndentAction, hra] at h
      · simp only [estimateIndentAction, hra] at h
        subst h
        exact absurd hra (rule_estimate_ne_indentOutdent rule prev cur)

/-- Witness for the C10 theorem: its second part applied at the brace
configuration on lines that produce IndentOutdent. -/
theorem c10_witness :
    ∃ bl, braceConfig.brackets = some bl ∧
      bl.any (fun b =>
        bracketIndentOutdentTest b "if (x) \x7b".toList
          ("\x7d".toList.dropWhile isJsWs)) = true :=
  c10_indentoutdent_only_from_brackets.2.1 braceConfig "if (x) \x7b".toList
    "\x7d".toList (by decide)

/-- C1 counterexample: on the first line of the buffer (cursor line 0,
empty selection), with a configuration that has no rules at all, the
command still rewrites the line "  foo" to "foo" (a text replacement) and
moves the cursor from column 3 to column 1: the first-line case is not a
do-nothing. -/
theorem c1_counterexample :
    runReindentCurrentLineCommand ⟨["  foo".toList], 0, 3, true⟩ emptyConfig
      4 false false = some ⟨["foo".toList], 1⟩ ∧
    ["foo".toList] ≠ ["  foo".toList] ∧ (1 : ℚ) ≠ (3 : ℕ) := by
  decide

/-- C1 amended: a non-empty (range) selection makes the command hand the
engine the empty string for both lines; provided the configuration has no
indentation rules (whose patterns could still match the empty string), the
command is then a silent no-op: the buffer and the cursor column are left
exactly as they were.  On the first line of the buffer the command is NOT a
no-op in general (see the counterexample): it reindents the line against an
empty previous line. -/
theorem c1_amended_nonempty_selection_noop (editor : EditorState)
    (cfg : ILanguageConfiguration) (tabSize : ℕ) (hardTab : Bool)
    (eolCRLF : Bool)
    (hrules : cfg.indentationRules = none)
    (hsel : editor.selectionEmpty = false) :
    runReindentCurrentLineCommand editor cfg tabSize hardTab eolCRLF =
      some ⟨editor.lines, (editor.cursorChar : ℚ)⟩ := by
  have hest : estimateIndentAction (some []) [] cfg = IndentAction.None := by
    rcases cfg with ⟨rules, brackets⟩
    simp only at hrules
    subst hrules
    rcases brackets with _ | bl <;> simp [estimateIndentAction]
  have hpc : getPreviousAndCurrentLine editor = ([], []) := by
    unfold getPreviousAndCurrentLine
    rw [hsel]
    simp
  have hri : reindentCurrentLine IndentAction.None [] [] tabSize hardTab
      editor.cursorChar eolCRLF =
      some ⟨[], (editor.cursorChar : ℚ), false, false⟩ := by
    unfold reindentCurrentLine
    simp [getIndent, countIndent_nil, computeIdealIndent]
  unfold runReindentCurrentLineCommand
  rw [hpc]
  simp only [hest, hri]
  simp

/-- Witness for the C1 amended theorem at a concrete editor state with a
non-empty selection. -/
theorem c1_amended_witness :
    runReindentCurrentLineCommand ⟨["ab".toList], 0, 1, false⟩ braceConfig
      4 false false = some ⟨["ab".toList], ((1 : ℕ) : ℚ)⟩ :=
  c1_amended_nonempty_selection_noop ⟨["ab".toList], 0, 1, false⟩ braceConfig
    4 false false rfl rfl

/-- C6 counterexample: with hard tabs, previous line "  x" (level 1/2 at
tab size 4) and action Indent, the ideal level 3/2 is fractional, so
indentLine's call to convertIndentLevelToString throws (RangeError from the
Array constructor) before any cursor handling: the call produces no result
at all, although the cursor (column 0, inside the one-space indent of the
current line " y") should per the claim have been moved to column
idealIndent * 1 = 3/2. -/
theorem c6_counterexample :
    reindentCurrentLine IndentAction.Indent "  x".toList " y".toList 4 true
      0 false = none ∧
    (0 : ℕ) < (getIndent " y".toList).length ∧
    computeIdealIndent IndentAction.Indent
      (countIndent (getIndent "  x".toList) 4) = 3 / 2 := by
  decide

/-- C6 amended: whenever reindentCurrentLine completes (returns a result
rather than throwing), the final cursor column is exactly the one the
specification describes: snapped to idealIndent * nativeCharacterTabSize
when the original column was strictly inside the raw leading whitespace,
shifted by (idealIndent - currentIndentLevel) * tabSize when the level
changed, and unchanged otherwise. -/
theorem c6_amended_cursor_rule (indentAction : IndentAction)
    (prev cur : Line) (tabSize : ℕ) (hardTab : Bool) (cursorChar : ℕ)
    (eolCRLF : Bool) (r : ReindentResult)
    (h : reindentCurrentLine indentAction prev cur tabSize hardTab cursorChar
      eolCRLF = some r) :
    r.cursor = specCursorColumn hardTab tabSize cursorChar
      (computeIdealIndent indentAction (countIndent (getIndent prev) tabSize))
      (countIndent (getIndent cur) tabSize)
      (getIndent cur).length := by
  simp only [reindentCurrentLine] at h
  unfold specCursorColumn
  rcases hil : indentLine hardTab cur
      (computeIdealIndent indentAction (countIndent (getIndent prev) tabSize))
      (getIndent prev) (countIndent (getIndent prev) tabSize) tabSize with _ | ic
  · rw [hil] at h
    split_ifs at h ⊢ <;> (cases h; rfl)
  · rw [hil] at h
    split_ifs at h ⊢ <;> (cases h; rfl)

/-- Witness for the C6 amended theorem: a completing soft-tab call whose
cursor lands where the specification formula says. -/
theorem c6_amended_witness :
    ReindentResult.cursor ⟨"  bar".toList, 7, true, true⟩ =
      specCursorColumn false 4 5
        (computeIdealIndent IndentAction.None
          (countIndent (getIndent "  x".toList) 4))
        (countIndent (getIndent "bar".toList) 4)
        (getIndent "bar".toList).length :=
  c6_amended_cursor_rule IndentAction.None "  x".toList "bar".toList 4 false
    5 false ⟨"  bar".toList, 7, true, true⟩ (by decide)

/-- C9: round-trip of the indent arithmetic.  For every non-negative
integral indent level and positive tab size, whenever
convertIndentLevelToString produces a string (it always does on integral
levels), countIndent of getIndent of that string recovers the level, under
both tab policies. -/
theorem c9_roundtrip (level tabSize : ℕ) (hardTab : Bool) (s : Line)
    (hts : 0 < tabSize)
    (h : convertIndentLevelToString hardTab (level : ℚ) tabSize = some s) :
    countIndent (getIndent s) tabSize = (level : ℚ) := by
  have h0 : (0:ℚ) ≤ (level:ℚ) := by positivity
  obtain ⟨hc, hws⟩ := convert_some_inv hardTab (level:ℚ) tabSize hts h0 s h
  have hself : s.takeWhile isJsWs = s := List.takeWhile_eq_self_iff.mpr hws
  unfold getIndent
  rw [hself]
  exact hc

/-- Witness for the C9 theorem: level 3 under hard tabs at tab size 4. -/
theorem c9_roundtrip_witness :
    countIndent (getIndent (List.replicate 3 '\t')) 4 = ((3:ℕ) : ℚ) :=
  c9_roundtrip 3 4 true (List.replicate 3 '\t') (by decide) (by decide)

/-- C4 counterexample: convertIndentLevelToString throws (none) at the
fractional level 3/2 under hard tabs, and the full command pipeline reaches
that throw: previous line "  if (x) {" (level 1/2 at tab size 4) matched by
the brace open pattern yields Indent, ideal level 3/2, and the hard-tab
replication throws before any edit: the command raises rather than
returning. -/
theorem c4_counterexample :
    convertIndentLevelToString true (3 / 2) 4 = none ∧
    runReindentCurrentLineCommand
      ⟨["  if (x) \x7b".toList, " y".toList], 1, 0, true⟩ braceConfig 4 true
      false = none := by
  decide

/-- C4 amended: convertIndentLevelToString does return a string - level tab
characters in hard-tab mode, level * tabSize space characters otherwise -
for every non-negative INTEGRAL level (integer arithmetic, exact in the
source's binary64 as well); and reindentCurrentLine can never throw on an
IndentAction.None decision, because the ideal level is then the previous
line's own level and indentLine reuses the previous indent verbatim without
consulting convertIndentLevelToString (a comparison of two recomputations
of the same quantity, which binary64 also decides as equal).  Beyond these,
invocations of reindentCurrentLine CAN raise: a fractional ideal level
under hard tabs throws (see the counterexample), and in the source even the
soft-tab path can throw through binary64 rounding (tab size 3, 4-space
previous indent, action Indent: the array length is 7.999999999999999), a
failure exact rational arithmetic cannot exhibit and this embedding
therefore does not rule out. -/
theorem c4_amended_no_throw :
    (∀ (hardTab : Bool) (level tabSize : ℕ),
      convertIndentLevelToString hardTab (level : ℚ) tabSize =
        some (if hardTab then List.replicate level '\t'
          else List.replicate (level * tabSize) ' '))
    ∧ (∀ (prev cur : Line) (tabSize : ℕ) (hardTab : Bool) (cursorChar : ℕ)
        (eolCRLF : Bool), 0 < tabSize →
      (reindentCurrentLine IndentAction.None prev cur tabSize hardTab
        cursorChar eolCRLF).isSome = true) := by
  constructor
  · intro hardTab level tabSize
    cases hardTab
    · simp only [if_neg (by simp : ¬ (false = true))]
      exact convert_soft_eq (level:ℚ) tabSize (level * tabSize)
        (by push_cast; ring)
    · simp only [if_pos rfl]
      exact convert_hard_eq (level:ℚ) tabSize level rfl
  · intro prev cur tabSize hardTab cursorChar eolCRLF hts
    have hid : computeIdealIndent IndentAction.None
        (countIndent (getIndent prev) tabSize) =
        countIndent (getIndent prev) tabSize := by
      simp only [computeIdealIndent]
      rw [if_neg (not_lt.mpr (countIndent_nonneg _ _))]
    have hil : indentLine hardTab cur
        (computeIdealIndent IndentAction.None
          (countIndent (getIndent prev) tabSize))
        (getIndent prev) (countIndent (getIndent prev) tabSize) tabSize =
        some (getIndent prev ++ cur.dropWhile isJsWs) := by
      unfold indentLine
      rw [if_pos hid.symm]
    simp only [reindentCurrentLine]
    split_ifs <;> simp [hil]

/-- Witness for the C4 amended theorem: an IndentAction.None call over a
fractional previous level (2-space indent at tab size 4) under hard tabs
completes. -/
theorem c4_amended_witness :
    (reindentCurrentLine IndentAction.None "  x".toList " y".toList
      4 true 0 false).isSome = true :=
  c4_amended_no_throw.2 "  x".toList " y".toList 4 true 0 false (by decide)

theorem head?_dropLast {α : Type} (l : List α) (c : α)
    (h : l.dropLast.head? = some c) : l.head? = some c := by
  cases l with
  | nil => simp at h
  | cons a t =>
    cases t with
    | nil => simp at h
    | cons b u => simpa using h

theorem dropWhile_ne_nil_of_length (cur : Line)
    (h : cur.length ≠ (getIndent cur).length) :
    cur.dropWhile isJsWs ≠ [] := by
  intro hB
  apply h
  have hsplit := getIndent_append_dropWhile cur
  rw [hB, List.append_nil] at hsplit
  rw [hsplit]

/-- C7: when the ideal indent level computed by reindentCurrentLine equals
the previous line's indent level (as after an IndentAction.None decision on
an unclamped level), any rewrite of the current line carries the previous
line's leading-whitespace text verbatim: the new line's leading whitespace
is byte-for-byte getIndent of the previous line, and indentLine at equal
levels returns previousIndent prepended to the stripped line without
consulting convertIndentLevelToString (so it cannot throw there). -/
theorem c7_previous_indent_verbatim (indentAction : IndentAction)
    (prev cur : Line) (tabSize : ℕ) (hardTab : Bool) (cursorChar : ℕ)
    (eolCRLF : Bool) (r : ReindentResult)
    (heq : computeIdealIndent indentAction
      (countIndent (getIndent prev) tabSize) =
      countIndent (getIndent prev) tabSize)
    (h : reindentCurrentLine indentAction prev cur tabSize hardTab cursorChar
      eolCRLF = some r)
    (hed : r.edited = true) :
    getIndent r.newText = getIndent prev ∧
    indentLine hardTab cur (countIndent (getIndent prev) tabSize)
      (getIndent prev) (countIndent (getIndent prev) tabSize) tabSize =
      some (getIndent prev ++ cur.dropWhile isJsWs) := by
  have hil : indentLine hardTab cur (countIndent (getIndent prev) tabSize)
      (getIndent prev) (countIndent (getIndent prev) tabSize) tabSize =
      some (getIndent prev ++ cur.dropWhile isJsWs) := by
    unfold indentLine
    rw [if_pos rfl]
  refine ⟨?_, hil⟩
  simp only [reindentCurrentLine] at h
  rw [heq, hil] at h
  split_ifs at h with h1 h2 h3 <;> cases h <;> try (simp at hed)
  all_goals {
    simp only []
    split_ifs with htrim
    · obtain ⟨he, hlen, hne⟩ := htrim
      rw [List.dropLast_append_of_ne_nil _ (dropWhile_ne_nil_of_length cur hne)]
      exact getIndent_of_ws_append _ _ (getIndent_mem_ws prev)
        (fun c hc => head_dropWhile_not isJsWs cur c
          (head?_dropLast _ c hc))
    · exact getIndent_of_ws_append _ _ (getIndent_mem_ws prev)
        (head_dropWhile_not isJsWs cur)
  }

/-- Witness for the C7 theorem: the mixed tab-space indent of the previous
line "\t foo" is copied verbatim onto "bar". -/
theorem c7_witness :
    getIndent (ReindentResult.newText ⟨"\t bar".toList, 5, true, true⟩) =
      getIndent "\t foo".toList ∧
    indentLine false "bar".toList (countIndent (getIndent "\t foo".toList) 4)
      (getIndent "\t foo".toList)
      (countIndent (getIndent "\t foo".toList) 4) 4 =
      some (getIndent "\t foo".toList ++ "bar".toList.dropWhile isJsWs) :=
  c7_previous_indent_verbatim IndentAction.None "\t foo".toList "bar".toList
    4 false 0 false ⟨"\t bar".toList, 5, true, true⟩ (by decide) (by decide)
    rfl

theorem estimate_congr_stripped (prev cur1 cur2 : Line)
    (cfg : ILanguageConfiguration)
    (hrules : cfg.indentationRules = none)
    (hstrip : cur1.dropWhile isJsWs = cur2.dropWhile isJsWs) :
    estimateIndentAction (some prev) cur1 cfg =
      estimateIndentAction (some prev) cur2 cfg := by
  rcases cfg with ⟨rules, brackets⟩
  simp only at hrules
  subst hrules
  simp only [estimateIndentAction, hstrip]

theorem reindent_noedit (a : IndentAction) (prev cur : Line) (ts : ℕ)
    (ht : Bool) (cursor : ℕ)
    (hlev : computeIdealIndent a (countIndent (getIndent prev) ts) =
      countIndent (getIndent cur) ts) :
    ∃ r2, reindentCurrentLine a prev cur ts ht cursor false = some r2 ∧
      r2.edited = false ∧ r2.newText = cur := by
  simp only [reindentCurrentLine, hlev, ne_eq, not_true_eq_false, if_false]
  split_ifs <;> exact ⟨_, rfl, rfl, rfl⟩

theorem reindent_no_crlf_cases (a : IndentAction) (prev cur : Line) (ts : ℕ)
    (ht : Bool) (cursor : ℕ) (r : ReindentResult)
    (h : reindentCurrentLine a prev cur ts ht cursor false = some r) :
    (r.newText = cur ∧
      computeIdealIndent a (countIndent (getIndent prev) ts) =
        countIndent (getIndent cur) ts)
    ∨ (∃ ic, indentLine ht cur
        (computeIdealIndent a (countIndent (getIndent prev) ts))
        (getIndent prev) (countIndent (getIndent prev) ts) ts = some ic ∧
      r.newText = ic ∧
      computeIdealIndent a (countIndent (getIndent prev) ts) ≠
        countIndent (getIndent cur) ts) := by
  simp only [reindentCurrentLine] at h
  rcases hil : indentLine ht cur
      (computeIdealIndent a (countIndent (getIndent prev) ts))
      (getIndent prev) (countIndent (getIndent prev) ts) ts with _ | ic
  · rw [hil] at h
    split_ifs at h with h1 h2 h3 <;> cases h <;>
      exact Or.inl ⟨rfl, not_not.mp h1⟩
  · rw [hil] at h
    split_ifs at h with h1 h2 h3 <;> cases h <;>
      first
        | exact Or.inl ⟨rfl, not_not.mp h1⟩
        | exact Or.inr ⟨ic, rfl, rfl, h1⟩

/-- C8 counterexample: with a decreaseIndentPattern that inspects leading
whitespace (regex matching a whitespace first character), the first call
brings "bar" to its ideal level 1 ("    bar", the previous line "    foo();"
level), yet the second call then sees the decrease pattern match the NEW
leading whitespace, decides Outdent, and performs another text mutation:
reindent is not idempotent for every configuration. -/
theorem c8_counterexample :
    reindentPipeline "    foo();".toList "bar".toList headWsDecreaseConfig 4
      false 10 false = some ⟨"    bar".toList, 14, true, true⟩ ∧
    countIndent (getIndent "    bar".toList) 4 =
      computeIdealIndent
        (estimateIndentAction (some "    foo();".toList) "bar".toList
          headWsDecreaseConfig)
        (countIndent (getIndent "    foo();".toList) 4) ∧
    (reindentPipeline "    foo();".toList "    bar".toList
      headWsDecreaseConfig 4 false 14 false).map ReindentResult.edited =
      some true := by
  decide

/-- C8 amended: the second invocation is a no-op for a configuration whose
decision cannot see the rewritten leading whitespace - in particular every
configuration without indentation rules, bracket logic reading only the
previous line and the stripped current line - in a non-CRLF document
(whose trim can alter the stripped content), PROVIDED the first call's
target level is exact: it equals the previous line's level (the indent text
is then copied byte-for-byte, so the second call recompares identical
quantities, which binary64 also decides as equal) or already equals the
current level (no edit at all).  Outside that proviso the program can
break idempotence in two ways: indentation rules that read leading
whitespace oscillate (see the counterexample), and when the first call
synthesizes the indent from a fractional level, binary64 rounding in the
source makes the second call compare 0.6666666666666666 against
0.6666666666666667 (tab size 3, 5-space previous indent, close-bracket
current line) and edit again - drift that exact rational arithmetic cannot
exhibit and this embedding therefore does not deny. -/
theorem c8_amended_idempotent (prev cur : Line)
    (cfg : ILanguageConfiguration) (tabSize : ℕ) (hardTab : Bool)
    (cursorChar cursorChar2 : ℕ) (r : ReindentResult)
    (hrules : cfg.indentationRules = none) (hts : 0 < tabSize)
    (hexact : computeIdealIndent (estimateIndentAction (some prev) cur cfg)
        (countIndent (getIndent prev) tabSize) =
        countIndent (getIndent prev) tabSize ∨
      computeIdealIndent (estimateIndentAction (some prev) cur cfg)
        (countIndent (getIndent prev) tabSize) =
        countIndent (getIndent cur) tabSize)
    (h : reindentPipeline prev cur cfg tabSize hardTab cursorChar false =
      some r) :
    ∃ r2, reindentPipeline prev r.newText cfg tabSize hardTab cursorChar2
        false = some r2 ∧ r2.edited = false ∧ r2.newText = r.newText := by
  unfold reindentPipeline at h ⊢
  rcases reindent_no_crlf_cases _ prev cur tabSize hardTab cursorChar r h with
    ⟨hnt, hlev⟩ | ⟨ic, hil, hnt, hne⟩
  · rw [hnt]
    obtain ⟨r2, h2, he2, hn2⟩ := reindent_noedit
      (estimateIndentAction (some prev) cur cfg) prev cur tabSize hardTab
      cursorChar2 hlev
    exact ⟨r2, h2, he2, hn2⟩
  · have hvp : computeIdealIndent (estimateIndentAction (some prev) cur cfg)
        (countIndent (getIndent prev) tabSize) =
        countIndent (getIndent prev) tabSize := hexact.resolve_right hne
    have hic : ic = getIndent prev ++ cur.dropWhile isJsWs := by
      unfold indentLine at hil
      rw [if_pos hvp.symm] at hil
      exact (Option.some.inj hil).symm
    have hstripT : (r.newText).dropWhile isJsWs = cur.dropWhile isJsWs := by
      rw [hnt, hic]
      exact dropWhile_of_ws_append _ _ (getIndent_mem_ws prev)
        (head_dropWhile_not isJsWs cur)
    have hindT : getIndent r.newText = getIndent prev := by
      rw [hnt, hic]
      exact getIndent_of_ws_append _ _ (getIndent_mem_ws prev)
        (head_dropWhile_not isJsWs cur)
    have hest2 : estimateIndentAction (some prev) r.newText cfg =
        estimateIndentAction (some prev) cur cfg :=
      estimate_congr_stripped prev _ cur cfg hrules hstripT
    rw [hest2]
    obtain ⟨r2, h2, he2, hn2⟩ := reindent_noedit
      (estimateIndentAction (some prev) cur cfg) prev r.newText tabSize
      hardTab cursorChar2 (by rw [hindT, hvp])
    exact ⟨r2, h2, he2, hn2⟩

/-- Witness for the C8 amended theorem: a bracket-only second call on the
reindented line "    bar" performs no mutation. -/
theorem c8_amended_witness :
    ∃ r2, reindentPipeline "    foo();".toList
        (ReindentResult.newText ⟨"    bar".toList, 4, true, true⟩)
        braceConfig 4 false 4 false = some r2 ∧ r2.edited = false ∧
      r2.newText = ReindentResult.newText ⟨"    bar".toList, 4, true, true⟩ :=
  c8_amended_idempotent "    foo();".toList "bar".toList braceConfig 4 false
    0 4 ⟨"    bar".toList, 4, true, true⟩ rfl (by decide) (by decide)
    (by decide)
